import Mathlib

/-!
Verification of the sliding-window rate limiter in src/api/analyze.ts.

The TypeScript source keeps a module-level map

  const requestLog = new Map<string, number[]>();
  const MAX_REQUESTS_PER_HOUR = 20;

and the function

  function checkRateLimit(ip: string): boolean {
    const now = Date.now();
    const oneHourAgo = now - 60 * 60 * 1000;
    const requests = requestLog.get(ip) || [];
    const recentRequests = requests.filter(time => time > oneHourAgo);
    if (recentRequests.length >= MAX_REQUESTS_PER_HOUR) {
      return false;
    }
    recentRequests.push(now);
    requestLog.set(ip, recentRequests);
    return true;
  }

We embed the map as a total function from identity strings to timestamp
lists (a missing key reads as the empty list, matching `get(ip) || []`),
and `checkRateLimit` as a pure function from the identity, the current
time and the pre-state to the returned boolean together with the
post-state.  Timestamps are plain integers (milliseconds since the epoch).
-/

namespace SeoAnalysis

/-- The state of `requestLog : Map<string, number[]>`, as a total function;
a key absent from the map is read as the empty list, which is exactly what
`requestLog.get(ip) || []` yields. -/
abbrev RequestLog := String → List Int

/-- The request log at process start: `new Map()`, i.e. no identity has any
stored history. -/
def emptyLog : RequestLog := fun _ => []

/-- The constant `MAX_REQUESTS_PER_HOUR = 20` (the quota). -/
def MAX_REQUESTS_PER_HOUR : Nat := 20

/-- The window duration `60 * 60 * 1000` milliseconds hard-coded in the
computation of `oneHourAgo`. -/
def windowDurationMs : Int := 60 * 60 * 1000

/-- The outcome of one `checkRateLimit` call: the returned boolean and the
request log after the call. -/
structure CheckResult where
  admitted : Bool
  log : RequestLog

/-- The body of `checkRateLimit`, made parametric in the quota and the
window duration (the source hard-codes `MAX_REQUESTS_PER_HOUR` and one
hour; the parametric form also lets us state the spec scenario that uses
quota 2 and a 1000 ms window).  Mirrors the source line by line:
compute the cutoff, read the stored list, keep the timestamps strictly
newer than the cutoff, reject without mutation when the retained count
reaches the quota, otherwise append `now` and store the pruned list. -/
def checkRateLimitWith (quota : Nat) (windowMs : Int) (ip : String)
    (now : Int) (requestLog : RequestLog) : CheckResult :=
  let oneHourAgo := now - windowMs
  let requests := requestLog ip
  let recentRequests := requests.filter (fun time => decide (time > oneHourAgo))
  if recentRequests.length ≥ quota then
    { admitted := false, log := requestLog }
  else
    { admitted := true,
      log := fun key => if key = ip then recentRequests ++ [now] else requestLog key }

/-- The function `checkRateLimit` of the source, with its hard-coded quota
and window. -/
def checkRateLimit : String → Int → RequestLog → CheckResult :=
  checkRateLimitWith MAX_REQUESTS_PER_HOUR windowDurationMs

/-- Runs a sequence of `checkRateLimit` calls (each given as an identity
and the value `Date.now()` returns at that call) against a request log,
threading the state and returning the final log. -/
def runCalls (calls : List (String × Int)) (requestLog : RequestLog) :
    RequestLog :=
  match calls with
  | [] => requestLog
  | (ip, t) :: rest => runCalls rest (checkRateLimit ip t requestLog).log

/-- A concrete request log holding a full quota of timestamp-zero entries
for the identity a, used to instantiate theorems at concrete inputs. -/
def fullLogA : RequestLog :=
  fun key => if key = "a" then List.replicate MAX_REQUESTS_PER_HOUR 0 else []

/-- Unfolding of `checkRateLimitWith` with its local bindings substituted. -/
theorem checkRateLimitWith_eq (quota : Nat) (windowMs : Int) (ip : String)
    (now : Int) (s : RequestLog) :
    checkRateLimitWith quota windowMs ip now s =
      if ((s ip).filter (fun time => decide (time > now - windowMs))).length ≥ quota then
        { admitted := false, log := s }
      else
        { admitted := true,
          log := fun key =>
            if key = ip then
              ((s ip).filter (fun time => decide (time > now - windowMs))) ++ [now]
            else s key } := rfl

/-- The window duration is positive. -/
theorem windowDurationMs_pos : (0 : Int) < windowDurationMs := by
  norm_num [windowDurationMs]

/-- The call admits exactly when the pruned history is strictly below quota. -/
theorem checkRateLimitWith_admitted_iff (quota : Nat) (windowMs : Int)
    (ip : String) (now : Int) (s : RequestLog) :
    (checkRateLimitWith quota windowMs ip now s).admitted = true ↔
      ((s ip).filter (fun time => decide (time > now - windowMs))).length < quota := by
  rw [checkRateLimitWith_eq]
  split <;> rename_i h
  · constructor
    · intro hx
      exact absurd hx Bool.false_ne_true
    · intro hx
      omega
  · constructor
    · intro _
      omega
    · intro _
      rfl

/-- A rejected call leaves the request log untouched. -/
theorem checkRateLimitWith_reject_log (quota : Nat) (windowMs : Int)
    (ip : String) (now : Int) (s : RequestLog)
    (h : (checkRateLimitWith quota windowMs ip now s).admitted = false) :
    (checkRateLimitWith quota windowMs ip now s).log = s := by
  rw [checkRateLimitWith_eq] at h ⊢
  split <;> rename_i hq
  · rfl
  · rw [if_neg hq] at h
    simp at h

/-- An admitted call stores the pruned history with `now` appended. -/
theorem checkRateLimitWith_admit_log (quota : Nat) (windowMs : Int)
    (ip : String) (now : Int) (s : RequestLog)
    (h : (checkRateLimitWith quota windowMs ip now s).admitted = true) :
    (checkRateLimitWith quota windowMs ip now s).log ip =
      ((s ip).filter (fun time => decide (time > now - windowMs))) ++ [now] := by
  rw [checkRateLimitWith_eq] at h ⊢
  split <;> rename_i hq
  · rw [if_pos hq] at h
    simp at h
  · simp

/-- A call never changes the stored list of any other identity. -/
theorem checkRateLimitWith_log_other (quota : Nat) (windowMs : Int)
    (ip : String) (now : Int) (s : RequestLog) (key : String)
    (hk : key ≠ ip) :
    (checkRateLimitWith quota windowMs ip now s).log key = s key := by
  rw [checkRateLimitWith_eq]
  split
  · rfl
  · simp [hk]

/-- One call keeps every per-identity list length at most the quota. -/
theorem checkRateLimitWith_log_length (quota : Nat) (windowMs : Int)
    (ip : String) (now : Int) (s : RequestLog) (key : String)
    (h : (s key).length ≤ quota) :
    ((checkRateLimitWith quota windowMs ip now s).log key).length ≤ quota := by
  rw [checkRateLimitWith_eq]
  split <;> rename_i hq
  · exact h
  · by_cases hk : key = ip
    · subst hk
      show (if key = key then _ ++ [now] else s key).length ≤ quota
      rw [if_pos rfl, List.length_append, List.length_cons, List.length_nil]
      omega
    · show (if key = ip then _ ++ [now] else s key).length ≤ quota
      rw [if_neg hk]
      exact h

/-- Running any call sequence keeps every per-identity list length at most
the quota, provided it held initially. -/
theorem runCalls_length_le (calls : List (String × Int))
    (s : RequestLog)
    (h : ∀ k, (s k).length ≤ MAX_REQUESTS_PER_HOUR) :
    ∀ k, ((runCalls calls s) k).length ≤ MAX_REQUESTS_PER_HOUR := by
  induction calls generalizing s with
  | nil => exact h
  | cons c rest ih =>
      obtain ⟨ip, t⟩ := c
      exact ih _ (fun k => checkRateLimitWith_log_length _ _ _ _ _ _ (h k))

/-- The decision and the updated own-key history depend only on the stored
history of the key being checked and on the current time. -/
theorem checkRateLimitWith_congr (quota : Nat) (windowMs : Int)
    (ip1 ip2 : String) (now : Int) (s1 s2 : RequestLog)
    (h : s1 ip1 = s2 ip2) :
    (checkRateLimitWith quota windowMs ip1 now s1).admitted
        = (checkRateLimitWith quota windowMs ip2 now s2).admitted ∧
      (checkRateLimitWith quota windowMs ip1 now s1).log ip1
        = (checkRateLimitWith quota windowMs ip2 now s2).log ip2 := by
  rw [checkRateLimitWith_eq, checkRateLimitWith_eq, h]
  split
  · exact ⟨rfl, h⟩
  · simp

/-- Unfolding of the hard-coded constants in `checkRateLimit`. -/
theorem checkRateLimit_eq (ip : String) (now : Int) (s : RequestLog) :
    checkRateLimit ip now s
      = checkRateLimitWith MAX_REQUESTS_PER_HOUR windowDurationMs ip now s := rfl

/-- The call rejects exactly when the pruned history has reached the quota. -/
theorem checkRateLimitWith_rejected_iff (quota : Nat) (windowMs : Int)
    (ip : String) (now : Int) (s : RequestLog) :
    (checkRateLimitWith quota windowMs ip now s).admitted = false ↔
      quota ≤ ((s ip).filter (fun time => decide (time > now - windowMs))).length := by
  rw [checkRateLimitWith_eq]
  split <;> rename_i h
  · constructor
    · intro _
      omega
    · intro _
      rfl
  · constructor
    · intro hx
      exact absurd hx (fun hc => Bool.noConfusion hc)
    · intro hx
      omega

/-- Pruning a history whose entries all equal the current time, with a
positive window, keeps every entry. -/
theorem filter_replicate_now (k : Nat) (now : Int) (windowMs : Int)
    (hw : 0 < windowMs) :
    (List.replicate k now).filter (fun time => decide (time > now - windowMs))
      = List.replicate k now := by
  apply List.filter_eq_self.mpr
  intro a ha
  rw [List.eq_of_mem_replicate ha]
  exact decide_eq_true (by omega)

/-- Running `k` calls for one identity at one fixed time, starting from a
history of `j` copies of that time with `j + k` within quota, yields a
history of `j + k` copies of that time. -/
theorem runCalls_replicate_same (ip : String) (now : Int) :
    ∀ (k j : Nat) (s : RequestLog), s ip = List.replicate j now →
      j + k ≤ MAX_REQUESTS_PER_HOUR →
      (runCalls (List.replicate k (ip, now)) s) ip = List.replicate (j + k) now := by
  intro k
  induction k with
  | zero =>
      intro j s hs _
      simpa using hs
  | succ k ih =>
      intro j s hs hjk
      rw [List.replicate_succ]
      show (runCalls (List.replicate k (ip, now)) (checkRateLimit ip now s).log) ip = _
      have hadm : (checkRateLimit ip now s).admitted = true := by
        rw [checkRateLimit_eq, checkRateLimitWith_admitted_iff, hs,
          filter_replicate_now j now windowDurationMs windowDurationMs_pos,
          List.length_replicate]
        omega
      have hlog : (checkRateLimit ip now s).log ip = List.replicate (j + 1) now := by
        rw [checkRateLimit_eq] at hadm ⊢
        rw [checkRateLimitWith_admit_log _ _ _ _ _ hadm, hs,
          filter_replicate_now j now windowDurationMs windowDurationMs_pos,
          ← List.replicate_succ']
      have hrec := ih (j + 1) ((checkRateLimit ip now s).log) hlog (by omega)
      rw [hrec]
      congr 1
      omega

/-- C10: starting from the empty map, every state reachable by any sequence
of `checkRateLimit` calls stores, for every identity, a timestamp list of
length at most the quota 20. -/
theorem bounded_memory_per_identity (calls : List (String × Int))
    (ip : String) :
    ((runCalls calls emptyLog) ip).length ≤ MAX_REQUESTS_PER_HOUR :=
  runCalls_length_le calls emptyLog (fun _ => by simp [emptyLog]) ip

/-- C1: for an identity with no stored history, in a sequence of
`checkRateLimit` calls for it at one fixed time, each of the first 20 calls
returns true and the 21st returns false. -/
theorem first_quota_admitted_then_reject (ip : String) (now : Int)
    (s : RequestLog) (h : s ip = []) :
    (∀ k, k < MAX_REQUESTS_PER_HOUR →
        (checkRateLimit ip now (runCalls (List.replicate k (ip, now)) s)).admitted
          = true) ∧
      (checkRateLimit ip now
          (runCalls (List.replicate MAX_REQUESTS_PER_HOUR (ip, now)) s)).admitted
        = false := by
  have hrun : ∀ k, k ≤ MAX_REQUESTS_PER_HOUR →
      (runCalls (List.replicate k (ip, now)) s) ip = List.replicate k now := by
    intro k hk
    have hz : s ip = List.replicate 0 now := by simpa using h
    simpa using runCalls_replicate_same ip now k 0 s hz (by omega)
  constructor
  · intro k hk
    rw [checkRateLimit_eq, checkRateLimitWith_admitted_iff, hrun k (le_of_lt hk),
      filter_replicate_now k now windowDurationMs windowDurationMs_pos,
      List.length_replicate]
    exact hk
  · rw [checkRateLimit_eq, checkRateLimitWith_rejected_iff,
      hrun MAX_REQUESTS_PER_HOUR (le_refl _),
      filter_replicate_now _ now windowDurationMs windowDurationMs_pos,
      List.length_replicate]

/-- Witness for C1 at a concrete identity and time. -/
theorem first_quota_admitted_then_reject_witness :
    emptyLog "a" = [] ∧
      (checkRateLimit "a" 0
          (runCalls (List.replicate MAX_REQUESTS_PER_HOUR ("a", 0)) emptyLog)).admitted
        = false :=
  ⟨rfl, (first_quota_admitted_then_reject "a" 0 emptyLog rfl).2⟩

/-- C2: a rejected call leaves the stored log exactly as it was; moreover,
after the quota of admitted calls at one fixed time, any number N of further
calls at that time (all rejected) leave the whole state equal to the state
right after the 20th admission, and a further check at that time still
rejects. -/
theorem reject_leaves_state_unchanged (ip : String) (now : Int)
    (s : RequestLog) (h : s ip = []) :
    (∀ (ip2 : String) (t : Int) (l : RequestLog),
        (checkRateLimit ip2 t l).admitted = false →
          (checkRateLimit ip2 t l).log = l) ∧
      (∀ N : Nat,
        runCalls (List.replicate N (ip, now))
            (runCalls (List.replicate MAX_REQUESTS_PER_HOUR (ip, now)) s)
          = runCalls (List.replicate MAX_REQUESTS_PER_HOUR (ip, now)) s) ∧
      (∀ N : Nat,
        (checkRateLimit ip now
            (runCalls (List.replicate N (ip, now))
              (runCalls (List.replicate MAX_REQUESTS_PER_HOUR (ip, now)) s))).admitted
          = false) := by
  have hframe : ∀ (ip2 : String) (t : Int) (l : RequestLog),
      (checkRateLimit ip2 t l).admitted = false →
        (checkRateLimit ip2 t l).log = l := by
    intro ip2 t l hl
    rw [checkRateLimit_eq] at hl ⊢
    exact checkRateLimitWith_reject_log _ _ _ _ _ hl
  have hq : (runCalls (List.replicate MAX_REQUESTS_PER_HOUR (ip, now)) s) ip
      = List.replicate MAX_REQUESTS_PER_HOUR now := by
    have hz : s ip = List.replicate 0 now := by simpa using h
    simpa using
      runCalls_replicate_same ip now MAX_REQUESTS_PER_HOUR 0 s hz (by omega)
  have hrej : (checkRateLimit ip now
      (runCalls (List.replicate MAX_REQUESTS_PER_HOUR (ip, now)) s)).admitted
        = false := by
    rw [checkRateLimit_eq, checkRateLimitWith_rejected_iff, hq,
      filter_replicate_now _ now windowDurationMs windowDurationMs_pos,
      List.length_replicate]
  have hstay : ∀ N : Nat,
      runCalls (List.replicate N (ip, now))
          (runCalls (List.replicate MAX_REQUESTS_PER_HOUR (ip, now)) s)
        = runCalls (List.replicate MAX_REQUESTS_PER_HOUR (ip, now)) s := by
    intro N
    induction N with
    | zero => rfl
    | succ N ih =>
        rw [List.replicate_succ]
        show runCalls (List.replicate N (ip, now))
            (checkRateLimit ip now
              (runCalls (List.replicate MAX_REQUESTS_PER_HOUR (ip, now)) s)).log = _
        rw [hframe _ _ _ hrej]
        exact ih
  refine ⟨hframe, hstay, ?_⟩
  intro N
  rw [hstay N]
  exact hrej

/-- If some list element fails the filter predicate, the filtered list is
strictly shorter. -/
theorem length_filter_lt_of_mem_not {p : Int → Bool} {l : List Int} {a : Int}
    (ha : a ∈ l) (hpa : p a = false) : (l.filter p).length < l.length := by
  have hle := List.length_filter_le p l
  have hne : (l.filter p).length ≠ l.length := by
    intro he
    have hall := List.filter_length_eq_length.mp he a ha
    rw [hpa] at hall
    exact Bool.noConfusion hall
  omega

/-- C3: immediately after any `checkRateLimit` call for an identity at time
now, in any state reachable from the empty map, the stored list for that
identity holds no timestamp outside the trailing window, i.e. every stored
entry is strictly newer than now minus the window duration. -/
theorem no_stale_retained_after_check (calls : List (String × Int))
    (ip : String) (now t : Int)
    (ht : t ∈ (checkRateLimit ip now (runCalls calls emptyLog)).log ip) :
    now - windowDurationMs < t := by
  have hlen : ((runCalls calls emptyLog) ip).length ≤ MAX_REQUESTS_PER_HOUR :=
    runCalls_length_le calls emptyLog (fun _ => by simp [emptyLog]) ip
  rw [checkRateLimit_eq] at ht
  by_cases hadm : (checkRateLimitWith MAX_REQUESTS_PER_HOUR windowDurationMs ip now
      (runCalls calls emptyLog)).admitted = true
  · rw [checkRateLimitWith_admit_log _ _ _ _ _ hadm] at ht
    rcases List.mem_append.mp ht with h1 | h2
    · have hdec := of_decide_eq_true (List.mem_filter.mp h1).2
      omega
    · have hnow : t = now := List.mem_singleton.mp h2
      subst hnow
      have hw := windowDurationMs_pos
      omega
  · have hrej : (checkRateLimitWith MAX_REQUESTS_PER_HOUR windowDurationMs ip now
        (runCalls calls emptyLog)).admitted = false := by
      cases hb : (checkRateLimitWith MAX_REQUESTS_PER_HOUR windowDurationMs ip now
          (runCalls calls emptyLog)).admitted
      · rfl
      · exact absurd hb hadm
    rw [checkRateLimitWith_reject_log _ _ _ _ _ hrej] at ht
    have hge := (checkRateLimitWith_rejected_iff _ _ _ _ _).mp hrej
    have hle := List.length_filter_le
      (fun time => decide (time > now - windowDurationMs))
      ((runCalls calls emptyLog) ip)
    have heq : (((runCalls calls emptyLog) ip).filter
        (fun time => decide (time > now - windowDurationMs))).length
          = ((runCalls calls emptyLog) ip).length := by omega
    have hall := List.filter_length_eq_length.mp heq t ht
    have hdec := of_decide_eq_true hall
    omega

/-- Witness for C3 at a concrete call on the empty map. -/
theorem no_stale_retained_after_check_witness :
    (0 : Int) ∈ (checkRateLimit "a" 0 (runCalls [] emptyLog)).log "a" ∧
      (0 : Int) - windowDurationMs < 0 :=
  ⟨by decide, no_stale_retained_after_check [] "a" 0 0 (by decide)⟩

/-- C4: in every state reachable by calls with non-decreasing times, for
every identity and evaluation instant, the number of stored timestamps in
the trailing window is at most the quota 20. -/
theorem sliding_window_count_bound (calls : List (String × Int))
    (hmono : List.Chain' (fun a b => a ≤ b) (calls.map Prod.snd))
    (ip : String) (now : Int) :
    (((runCalls calls emptyLog) ip).filter
        (fun time => decide (time > now - windowDurationMs))).length
      ≤ MAX_REQUESTS_PER_HOUR :=
  le_trans (List.length_filter_le _ _)
    (runCalls_length_le calls emptyLog (fun _ => by simp [emptyLog]) ip)

/-- Witness for C4 on a concrete monotone call sequence. -/
theorem sliding_window_count_bound_witness :
    List.Chain' (fun a b => a ≤ b) ([("a", (0 : Int)), ("a", 5)].map Prod.snd) ∧
      (((runCalls [("a", (0 : Int)), ("a", 5)] emptyLog) "a").filter
          (fun time => decide (time > (5 : Int) - windowDurationMs))).length
        ≤ MAX_REQUESTS_PER_HOUR :=
  ⟨by simp, sliding_window_count_bound [("a", (0 : Int)), ("a", 5)] (by simp) "a" 5⟩

/-- C5: once an identity has a full quota of stored timestamps, when time
advances strictly past the window measured from the oldest stored
timestamp, the next call for that identity is admitted again; and the spec
scenario with quota 2 and a 1000 ms window runs exactly as listed
(admit at 0, admit at 100, reject at 200, admit at 1001 with retained
history 100 before the append). -/
theorem slot_frees_after_window (ip : String) (s : RequestLog) (t0 now : Int)
    (hlen : (s ip).length = MAX_REQUESTS_PER_HOUR)
    (hmem : t0 ∈ s ip)
    (hold : ∀ u ∈ s ip, t0 ≤ u)
    (hpast : t0 + windowDurationMs < now) :
    (checkRateLimit ip now s).admitted = true ∧
      (let r1 := checkRateLimitWith 2 1000 "a" 0 emptyLog
       let r2 := checkRateLimitWith 2 1000 "a" 100 r1.log
       let r3 := checkRateLimitWith 2 1000 "a" 200 r2.log
       let r4 := checkRateLimitWith 2 1000 "a" 1001 r3.log
       r1.admitted = true ∧ r2.admitted = true ∧ r3.admitted = false ∧
         r4.admitted = true ∧ r4.log "a" = [100, 1001]) := by
  constructor
  · rw [checkRateLimit_eq, checkRateLimitWith_admitted_iff]
    have hfalse : (fun time => decide (time > now - windowDurationMs)) t0 = false := by
      simp only [decide_eq_false_iff_not]
      omega
    have hlt := length_filter_lt_of_mem_not
      (p := fun time => decide (time > now - windowDurationMs)) hmem hfalse
    omega
  · decide

/-- Witness for C5 on a full log of zero timestamps. -/
theorem slot_frees_after_window_witness :
    ((fullLogA "a").length = MAX_REQUESTS_PER_HOUR ∧
        (0 : Int) ∈ fullLogA "a" ∧
        (∀ u ∈ fullLogA "a", (0 : Int) ≤ u) ∧
        (0 : Int) + windowDurationMs < 3600001) ∧
      (checkRateLimit "a" 3600001 fullLogA).admitted = true :=
  ⟨⟨by decide, by decide, by decide, by decide⟩,
    (slot_frees_after_window "a" fullLogA 0 3600001
      (by decide) (by decide) (by decide) (by decide)).1⟩

/-- C6: a call for one identity never changes the stored list of a distinct
identity, and any sequence of calls for the first identity changes neither
the stored list nor the admission decisions of the second. -/
theorem identity_independence (a b : String) (hab : a ≠ b) :
    (∀ (now : Int) (s : RequestLog), (checkRateLimit a now s).log b = s b) ∧
      (∀ (calls : List (String × Int)), (∀ c ∈ calls, c.1 = a) →
        ∀ (s : RequestLog), (runCalls calls s) b = s b) ∧
      (∀ (calls : List (String × Int)), (∀ c ∈ calls, c.1 = a) →
        ∀ (s : RequestLog) (now : Int),
          (checkRateLimit b now (runCalls calls s)).admitted
            = (checkRateLimit b now s).admitted) := by
  have hone : ∀ (now : Int) (s : RequestLog), (checkRateLimit a now s).log b = s b := by
    intro now s
    rw [checkRateLimit_eq]
    exact checkRateLimitWith_log_other _ _ _ _ _ _ (Ne.symm hab)
  have hmany : ∀ (calls : List (String × Int)), (∀ c ∈ calls, c.1 = a) →
      ∀ (s : RequestLog), (runCalls calls s) b = s b := by
    intro calls
    induction calls with
    | nil =>
        intro _ s
        rfl
    | cons c rest ih =>
        intro hc s
        obtain ⟨ip, t⟩ := c
        have hip : ip = a := hc (ip, t) (List.mem_cons_self _ _)
        subst hip
        show (runCalls rest (checkRateLimit ip t s).log) b = s b
        rw [ih (fun c2 hc2 => hc c2 (List.mem_cons_of_mem _ hc2)), hone]
  refine ⟨hone, hmany, ?_⟩
  intro calls hc s now
  rw [checkRateLimit_eq, checkRateLimit_eq]
  exact (checkRateLimitWith_congr _ _ _ _ _ _ _ (hmany calls hc s)).1

/-- Witness for C6 at two concrete distinct identities. -/
theorem identity_independence_witness :
    "a" ≠ "b" ∧ (checkRateLimit "a" 0 emptyLog).log "b" = emptyLog "b" :=
  ⟨by decide, (identity_independence "a" "b" (by decide)).1 0 emptyLog⟩

/-- C7: the admission decision and the resulting stored history for an
identity are a pure function of that identity's stored history and the
current time: two states agreeing on the identity's history yield the same
boolean and the same resulting history. -/
theorem decision_deterministic (ip : String) (now : Int) (s1 s2 : RequestLog)
    (h : s1 ip = s2 ip) :
    (checkRateLimit ip now s1).admitted = (checkRateLimit ip now s2).admitted ∧
      (checkRateLimit ip now s1).log ip = (checkRateLimit ip now s2).log ip := by
  rw [checkRateLimit_eq, checkRateLimit_eq]
  exact checkRateLimitWith_congr _ _ _ _ _ _ _ h

/-- Witness for C7 at two concrete states agreeing on the identity. -/
theorem decision_deterministic_witness :
    emptyLog "b" = fullLogA "b" ∧
      ((checkRateLimit "b" 0 emptyLog).admitted
          = (checkRateLimit "b" 0 fullLogA).admitted ∧
        (checkRateLimit "b" 0 emptyLog).log "b"
          = (checkRateLimit "b" 0 fullLogA).log "b") :=
  ⟨by decide, decision_deterministic "b" 0 emptyLog fullLogA (by decide)⟩

/-- C8: the call always returns a boolean (it cannot fail), and the empty
identity string is an ordinary key: its bucket behaves exactly like the
bucket of any other identity with the same stored history. -/
theorem total_and_empty_key_ordinary (ip : String) (now : Int)
    (s s2 : RequestLog) (h : s "" = s2 ip) :
    ((checkRateLimit ip now s).admitted = true ∨
        (checkRateLimit ip now s).admitted = false) ∧
      (checkRateLimit "" now s).admitted = (checkRateLimit ip now s2).admitted ∧
      (checkRateLimit "" now s).log "" = (checkRateLimit ip now s2).log ip := by
  refine ⟨?_, ?_⟩
  · cases (checkRateLimit ip now s).admitted
    · exact Or.inr rfl
    · exact Or.inl rfl
  · rw [checkRateLimit_eq, checkRateLimit_eq]
    exact checkRateLimitWith_congr _ _ _ _ _ _ _ h

/-- Witness for C8 at a concrete identity and states. -/
theorem total_and_empty_key_ordinary_witness :
    emptyLog "" = emptyLog "x" ∧
      ((checkRateLimit "x" 0 emptyLog).admitted = true ∨
        (checkRateLimit "x" 0 emptyLog).admitted = false) :=
  ⟨rfl, (total_and_empty_key_ordinary "x" 0 emptyLog emptyLog rfl).1⟩

/-- C9: a stored timestamp exactly one window old is discarded by the
pruning filter, and hence an identity with a full quota is already admitted
at exactly the oldest stored timestamp plus the window duration. -/
theorem window_boundary_discards (ip : String) (s : RequestLog) (t0 : Int)
    (hlen : (s ip).length = MAX_REQUESTS_PER_HOUR)
    (hmem : t0 ∈ s ip)
    (hold : ∀ u ∈ s ip, t0 ≤ u) :
    t0 ∉ (s ip).filter
        (fun time => decide (time > (t0 + windowDurationMs) - windowDurationMs)) ∧
      (checkRateLimit ip (t0 + windowDurationMs) s).admitted = true := by
  have hfalse :
      (fun time => decide (time > (t0 + windowDurationMs) - windowDurationMs)) t0
        = false := by
    simp only [decide_eq_false_iff_not]
    omega
  constructor
  · intro hmemf
    have h2 := of_decide_eq_true (List.mem_filter.mp hmemf).2
    omega
  · rw [checkRateLimit_eq, checkRateLimitWith_admitted_iff]
    have hlt := length_filter_lt_of_mem_not
      (p := fun time => decide (time > (t0 + windowDurationMs) - windowDurationMs))
      hmem hfalse
    omega

/-- Witness for C9 on a full log of zero timestamps. -/
theorem window_boundary_discards_witness :
    ((fullLogA "a").length = MAX_REQUESTS_PER_HOUR ∧
        (0 : Int) ∈ fullLogA "a" ∧ (∀ u ∈ fullLogA "a", (0 : Int) ≤ u)) ∧
      (checkRateLimit "a" ((0 : Int) + windowDurationMs) fullLogA).admitted = true :=
  ⟨⟨by decide, by decide, by decide⟩,
    (window_boundary_discards "a" fullLogA 0 (by decide) (by decide) (by decide)).2⟩

/-- Witness for C2 at a concrete identity, time and rejection count. -/
theorem reject_leaves_state_unchanged_witness :
    emptyLog "a" = [] ∧
      (checkRateLimit "a" 0
          (runCalls (List.replicate 3 ("a", 0))
            (runCalls (List.replicate MAX_REQUESTS_PER_HOUR ("a", 0)) emptyLog))).admitted
        = false :=
  ⟨rfl, (reject_leaves_state_unchanged "a" 0 emptyLog rfl).2.2 3⟩

end SeoAnalysis
